import Mathlib

/-!
# Verification of the chisel_sfv signal-correspondence engine

A shallow embedding of the correspondence search and proof-orchestration
engine of this repository: the elaborated-dump parser, target resolver,
candidate filter, proof dispatcher and result interpreter of
`aligner/trace_signal.py`, the per-pair equivalence tester and discovery
loop of `experiment/find_correspondences.py`, and the source-location
list parser and re-renderer of
`experiment/demo_fifo/python/trace_fifo_signals.py`.

Python strings are modelled as `String` / `List Char`; the specific
regular expressions of the source are modelled by hand-rolled scanners
that reproduce the Python `re` semantics (anchored `re.match`,
scanning `re.findall`/`re.search` that advance one character on failure,
greedy repetition with the one-step backtracking the patterns admit).
-/

/-! ## Character and list utilities shared by the embeddings -/

/-- Whitespace characters of Python `\s` (ASCII range, which is all the
dump and Verilog texts contain). -/
def isPySpace (c : Char) : Bool :=
  c = ' ' || c = '\t' || c = '\n' || c = '\r' || c = '\x0b' || c = '\x0c'

/-- Python `str.strip()` on a list of characters. -/
def pyStrip (cs : List Char) : List Char :=
  ((cs.dropWhile isPySpace).reverse.dropWhile isPySpace).reverse

/-- Containment of `needle` as a contiguous substring of `hay`,
Python's `needle in hay`. -/
def containsSubL (needle : List Char) : List Char → Bool
  | [] => needle.isEmpty
  | c :: t => needle.isPrefixOf (c :: t) || containsSubL needle t

/-- String wrapper for `containsSubL`. -/
def containsSubStr (needle hay : String) : Bool :=
  containsSubL needle.toList hay.toList

/-- Python `str.startswith`. -/
def startsWithStr (s pre : String) : Bool :=
  pre.toList.isPrefixOf s.toList

/-- Python slice `s[n:]`. -/
def dropStr (n : Nat) (s : String) : String :=
  String.mk (s.toList.drop n)

/-- Python `str.split(sep)` for a one-character separator: splits on every
occurrence and keeps empty pieces. -/
def splitOnCharL (sep : Char) : List Char → List (List Char)
  | [] => [[]]
  | c :: rest =>
    if c = sep then [] :: splitOnCharL sep rest
    else
      match splitOnCharL sep rest with
      | g :: gs => (c :: g) :: gs
      | [] => [[c]]

/-- Python `text.split('\n')`. -/
def splitLines (text : String) : List String :=
  (splitOnCharL '\n' text.toList).map String.mk

/-- Value of a decimal digit string, Python `int(...)` on the digit runs the
scanners capture (the scanners only ever hand it non-empty digit runs). -/
def natOfDigits (ds : List Char) : Nat :=
  ds.foldl (fun a c => a * 10 + (c.toNat - 48)) 0

/-- Fueled decimal rendering: most-significant digit first, nothing for
zero; the fuel bounds the digit count and `n` itself is always enough. -/
def renderNatAux : Nat → Nat → List Char
  | 0, _ => []
  | fuel + 1, n =>
    if n = 0 then []
    else renderNatAux fuel (n / 10) ++ [Char.ofNat (48 + n % 10)]

/-- Decimal rendering of a natural number, Python `str(n)`:
most-significant digit first, no leading zeros, `"0"` for zero. -/
def renderNatDigits (n : Nat) : List Char :=
  if n = 0 then ['0'] else renderNatAux n n

theorem digitChar_isDigit {d : Nat} (hd : d < 10) :
    (Char.ofNat (48 + d)).isDigit = true := by
  interval_cases d <;> decide

theorem digitChar_toNat {d : Nat} (hd : d < 10) :
    (Char.ofNat (48 + d)).toNat - 48 = d := by
  interval_cases d <;> decide

theorem natOfDigits_append_digit (ds : List Char) (c : Char) :
    natOfDigits (ds ++ [c]) = natOfDigits ds * 10 + (c.toNat - 48) := by
  unfold natOfDigits
  rw [List.foldl_append]
  rfl

theorem renderNatAux_spec :
    ∀ fuel n, n ≤ fuel →
      (∀ c ∈ renderNatAux fuel n, c.isDigit = true) ∧
      natOfDigits (renderNatAux fuel n) = n ∧
      (n ≠ 0 → renderNatAux fuel n ≠ []) := by
  intro fuel
  induction fuel with
  | zero =>
    intro n hn
    interval_cases n
    exact ⟨by simp [renderNatAux], by simp [renderNatAux, natOfDigits], by simp⟩
  | succ f ih =>
    intro n hn
    by_cases h0 : n = 0
    · subst h0
      exact ⟨by simp [renderNatAux], by simp [renderNatAux, natOfDigits], by simp⟩
    · have hdiv : n / 10 ≤ f := by
        have : n / 10 < n := Nat.div_lt_self (Nat.pos_of_ne_zero h0) (by norm_num)
        omega
      obtain ⟨ihd, ihv, _⟩ := ih (n / 10) hdiv
      have hmod : n % 10 < 10 := Nat.mod_lt _ (by norm_num)
      have hr : renderNatAux (f + 1) n =
          renderNatAux f (n / 10) ++ [Char.ofNat (48 + n % 10)] := by
        rw [renderNatAux, if_neg h0]
      refine ⟨?_, ?_, ?_⟩
      · intro c hc
        rw [hr] at hc
        rcases List.mem_append.mp hc with hc | hc
        · exact ihd c hc
        · rw [List.mem_singleton] at hc
          subst hc
          exact digitChar_isDigit hmod
      · rw [hr, natOfDigits_append_digit, ihv, digitChar_toNat hmod]
        omega
      · intro _
        simp [hr]

theorem renderNatDigits_all_digit (n : Nat) :
    ∀ c ∈ renderNatDigits n, c.isDigit = true := by
  intro c hc
  unfold renderNatDigits at hc
  split at hc
  · simp at hc; subst hc; decide
  · exact (renderNatAux_spec n n le_rfl).1 c hc

theorem natOfDigits_renderNatDigits (n : Nat) :
    natOfDigits (renderNatDigits n) = n := by
  unfold renderNatDigits
  split
  · next h => subst h; decide
  · exact (renderNatAux_spec n n le_rfl).2.1

theorem renderNatDigits_ne_nil (n : Nat) : renderNatDigits n ≠ [] := by
  unfold renderNatDigits
  split
  · simp
  · next h => exact (renderNatAux_spec n n le_rfl).2.2 h

theorem isDigit_ne_colon {c : Char} (h : c.isDigit = true) : c ≠ ':' := by
  intro heq; subst heq; simp at h

theorem isDigit_ne_lbrace {c : Char} (h : c.isDigit = true) : c ≠ '{' := by
  intro heq; subst heq; simp at h

/-- Behaviour of `takeWhile` and `dropWhile` across a block that wholly satisfies the
predicate followed by an element that fails it. -/
theorem takeWhile_block (p : Char → Bool) (xs : List Char) (y : Char)
    (ys : List Char) (hxs : ∀ x ∈ xs, p x = true) (hy : p y = false) :
    (xs ++ y :: ys).takeWhile p = xs ∧ (xs ++ y :: ys).dropWhile p = y :: ys := by
  induction xs with
  | nil => simp [List.takeWhile, List.dropWhile, hy]
  | cons x xs ih =>
    have hx : p x = true := hxs x (List.mem_cons_self _ _)
    have ih' := ih (fun a ha => hxs a (List.mem_cons_of_mem _ ha))
    simp [List.takeWhile, List.dropWhile, hx, ih'.1, ih'.2]

theorem takeWhile_all (p : Char → Bool) (xs : List Char)
    (hxs : ∀ x ∈ xs, p x = true) :
    xs.takeWhile p = xs ∧ xs.dropWhile p = [] := by
  induction xs with
  | nil => simp
  | cons x xs ih =>
    have hx : p x = true := hxs x (List.mem_cons_self _ _)
    have ih' := ih (fun a ha => hxs a (List.mem_cons_of_mem _ ha))
    simp [List.takeWhile, List.dropWhile, hx, ih'.1, ih'.2]

theorem mem_of_mem_dropWhile {p : Char → Bool} {a : Char} :
    ∀ {l : List Char}, a ∈ l.dropWhile p → a ∈ l
  | [], h => h
  | c :: t, h => by
    by_cases hc : p c
    · simp only [List.dropWhile, hc] at h
      exact List.mem_cons_of_mem _ (mem_of_mem_dropWhile h)
    · simpa [List.dropWhile, hc] using h

/-! ## `aligner/trace_signal.py`: signal table and dump parsing

A parsed signal record, the tuple `(wire_name, width, src_attr, hdlname)`
built by `parse_dump`; `hdlname` holds the original name after the
`"gold "`/`"gate "` role tag has been stripped. -/

structure Wire where
  name : String
  width : Nat
  src : Option String
  hdlname : Option String
deriving DecidableEq, Repr

/-- Python truthiness of an optional string: `None` and `""` are falsy. -/
def truthyOpt (o : Option String) : Bool :=
  match o with
  | some s => s ≠ ""
  | none => false

/-- One-or-more whitespace, regex `\s+`: requires a leading whitespace
character and consumes the maximal run. -/
def eatWS1 (cs : List Char) : Option (List Char) :=
  match cs with
  | c :: r => if isPySpace c then some (r.dropWhile isPySpace) else none
  | [] => none

/-- A literal token of a regex: anchored prefix match. -/
def eatLit (lit cs : List Char) : Option (List Char) :=
  if lit.isPrefixOf cs then some (cs.drop lit.length) else none

/-- Regex `(\d+)\s+`: a non-empty greedy digit run followed by one-or-more
whitespace, returning the run's value and the rest. -/
def eatNumWS (cs : List Char) : Option (Nat × List Char) :=
  let ds := cs.takeWhile Char.isDigit
  if ds.isEmpty then none
  else
    match eatWS1 (cs.dropWhile Char.isDigit) with
    | some r => some (natOfDigits ds, r)
    | none => none

/-- Anchored match of `attribute\s+<key>\s+"([^"]+)"` (`re.match` in
`parse_dump`), returning the quoted capture. -/
def matchAttrVal (key : String) (cs : List Char) : Option (List Char) := do
  let r1 ← eatLit "attribute".toList cs
  let r2 ← eatWS1 r1
  let r3 ← eatLit key.toList r2
  let r4 ← eatWS1 r3
  let r5 ← eatLit ['"'] r4
  let v := r5.takeWhile (fun c => c ≠ '"')
  if v.isEmpty then none
  else
    match r5.dropWhile (fun c => c ≠ '"') with
    | '"' :: _ => some v
    | _ => none

/-- The `attribute \src "..."` line matcher of `parse_dump`. -/
def matchSrcAttr (cs : List Char) : Option (List Char) :=
  matchAttrVal "\\src" cs

/-- The `attribute \hdlname "..."` line matcher of `parse_dump`. -/
def matchHdlAttr (cs : List Char) : Option (List Char) :=
  matchAttrVal "\\hdlname" cs

/-- Anchored match of the wire-declaration regex of `parse_dump`,
`wire\s+(?:width\s+(\d+)\s+)?(?:(?:input|output)\s+\d+\s+)?(.+)`:
returns `(width, stripped name)`, width defaulting to 1 when the optional
`width` group is absent.  Each optional group falls back to matching
nothing when its interior fails, as the regex engine does; on the
stripped lines `parse_dump` feeds this matcher the trailing `(.+)` can
only be empty when the whole line was consumed by a group, which a
stripped line (never ending in whitespace) cannot produce. -/
def matchWire (cs : List Char) : Option (Nat × List Char) := do
  let r1 ← eatLit "wire".toList cs
  let r2 ← eatWS1 r1
  let (wOpt, r3) :=
    match (do
      let a ← eatLit "width".toList r2
      let b ← eatWS1 a
      eatNumWS b : Option (Nat × List Char)) with
    | some (w, r) => (some w, r)
    | none => (none, r2)
  let r4 :=
    match (do
      let a ← (match eatLit "input".toList r3 with
               | some x => some x
               | none => eatLit "output".toList r3)
      let b ← eatWS1 a
      let (_, r) ← eatNumWS b
      pure r : Option (List Char)) with
    | some r => r
    | none => r3
  if r4.isEmpty then none
  else some (wOpt.getD 1, pyStrip r4)

/-- Side classification of a freshly declared wire from the pending
attributes, the body of the wire branch of `parse_dump`: an explicit
`"gold "`/`"gate "` role tag on the hdlname wins; otherwise the side is
inferred by testing which input file's absolute path occurs in the `src`
attribute; a wire with neither is kept in no table.  `true` means the
gold side. -/
def classifyWire (gate_abs gold_abs : String) (cur_src cur_hdl : Option String)
    (wname : String) (width : Nat) : Option (Bool × Wire) :=
  if truthyOpt cur_hdl && startsWithStr (cur_hdl.getD "") "gold " then
    some (true, ⟨wname, width, cur_src, some (dropStr 5 (cur_hdl.getD ""))⟩)
  else if truthyOpt cur_hdl && startsWithStr (cur_hdl.getD "") "gate " then
    some (false, ⟨wname, width, cur_src, some (dropStr 5 (cur_hdl.getD ""))⟩)
  else if truthyOpt cur_src then
    if containsSubStr gold_abs (cur_src.getD "") then
      some (true, ⟨wname, width, cur_src, none⟩)
    else if containsSubStr gate_abs (cur_src.getD "") then
      some (false, ⟨wname, width, cur_src, none⟩)
    else none
  else none

/-- The per-line state of `parse_dump`: the pending attributes and the two
signal tables accumulated so far. -/
structure ParseState where
  current_src : Option String
  current_hdlname : Option String
  gate_wires : List Wire
  gold_wires : List Wire
deriving DecidableEq, Repr

/-- The empty initial state of `parse_dump`. -/
def initParseState : ParseState := ⟨none, none, [], []⟩

/-- One iteration of the line loop of `parse_dump`: strip the line, record
a `\src` or `\hdlname` attribute as pending, consume the pending
attributes at a wire declaration (and clear them), leave the state alone
on any other `attribute` line, and clear the pending attributes on every
remaining kind of line. -/
def parse_dump_step (gate_abs gold_abs : String) (st : ParseState)
    (rawLine : String) : ParseState :=
  let line := pyStrip rawLine.toList
  match matchSrcAttr line with
  | some s => { st with current_src := some (String.mk s) }
  | none =>
    match matchHdlAttr line with
    | some h => { st with current_hdlname := some (String.mk h) }
    | none =>
      match matchWire line with
      | some (width, wname) =>
        let cleared := { st with current_src := none, current_hdlname := none }
        match classifyWire gate_abs gold_abs st.current_src st.current_hdlname
            (String.mk wname) width with
        | some (true, w) => { cleared with gold_wires := st.gold_wires ++ [w] }
        | some (false, w) => { cleared with gate_wires := st.gate_wires ++ [w] }
        | none => cleared
      | none =>
        if "attribute".toList.isPrefixOf line then st
        else { st with current_src := none, current_hdlname := none }

/-- Model of `parse_dump`: fold the line loop over the dump text split on newlines
and return `(gate_wires, gold_wires)`. -/
def parse_dump (dump_text gate_abs gold_abs : String) : List Wire × List Wire :=
  let fin := (splitLines dump_text).foldl (parse_dump_step gate_abs gold_abs)
    initParseState
  (fin.gate_wires, fin.gold_wires)

/-! ## `aligner/trace_signal.py`: target resolution, candidate filter,
proof dispatch and result interpretation -/

/-- The provenance key `find_gate_target` builds for a requested span,
`f"{gate_abs}:{line}.{start_col}-{line}.{end_col}"`. -/
def target_src_key (gate_abs : String) (line start_col end_col : Nat) : String :=
  gate_abs ++ ":" ++ String.mk (renderNatDigits line) ++ "." ++
    String.mk (renderNatDigits start_col) ++ "-" ++
    String.mk (renderNatDigits line) ++ "." ++ String.mk (renderNatDigits end_col)

/-- Whether a gate wire matches the span key: its `src` attribute is set
and contains the key as a substring (`if src and target_src in src`). -/
def matchesTargetKey (gate_abs : String) (line start_col end_col : Nat)
    (w : Wire) : Bool :=
  match w.src with
  | some s => containsSubStr (target_src_key gate_abs line start_col end_col) s
  | none => false

/-- Model of `find_gate_target`: every gate wire whose provenance contains the span
key, in table order. -/
def find_gate_target (gate_wires : List Wire) (gate_abs : String)
    (line start_col end_col : Nat) : List Wire :=
  gate_wires.filter (matchesTargetKey gate_abs line start_col end_col)

/-- Shortened provenance shown in the no-match diagnostic,
`src.split(':')[-1] if ':' in src else src`. -/
def src_short (s : String) : String :=
  if containsSubStr ":" s then
    String.mk ((splitOnCharL ':' s.toList).getLastD [])
  else s

/-- Display name of an untagged wire in the diagnostic,
`wire_name.replace('\\', '')`. -/
def wire_short (s : String) : String :=
  String.mk (s.toList.filter (fun c => c ≠ '\\'))

/-- The diagnostic entry the no-match branch of `main` prints for one gate
wire: hdl-named wires print their hdlname, wires with only a provenance
print their cleaned Yosys name, and wires without a (truthy) `src`
attribute are skipped by both branches. -/
def catalogue_entry (w : Wire) : Option (String × Nat × String) :=
  if truthyOpt w.src && truthyOpt w.hdlname then
    some (w.hdlname.getD "", w.width, src_short (w.src.getD ""))
  else if truthyOpt w.src then
    some (wire_short w.name, w.width, src_short (w.src.getD ""))
  else none

/-- The full diagnostic catalogue the no-match branch of `main` prints. -/
def gate_catalogue (gate_wires : List Wire) : List (String × Nat × String) :=
  gate_wires.filterMap catalogue_entry

/-- Outcome of target resolution in `main`: either the selected target
wire (`matches[0]`) or the failure path that prints the catalogue and
exits. -/
inductive ResolveOutcome where
  | err (catalogue : List (String × Nat × String))
  | ok (target : Wire)
deriving DecidableEq, Repr

/-- Steps 3 of `main`: resolve the requested span against the gate table,
selecting `matches[0]` on success and the diagnostic path on zero
matches. -/
def resolve_gate_target (gate_wires : List Wire) (gate_abs : String)
    (line start_col end_col : Nat) : ResolveOutcome :=
  match find_gate_target gate_wires gate_abs line start_col end_col with
  | [] => .err (gate_catalogue gate_wires)
  | m :: _ => .ok m

/-- Process exit code of the resolution step: the no-match branch calls
`sys.exit(1)`, the success branch continues (exit 0 stands for that). -/
def resolve_exit_code : ResolveOutcome → Nat
  | .err _ => 1
  | .ok _ => 0

/-- The keep-predicate of `filter_gold_candidates`: a candidate survives
when it is none of clock/reset, an `io_`-named port, a `clk2fflogic`
state-conversion internal, a miter-infrastructure wire (`\in_`,
`\trigger`, `\gold_`, `\gate_`), a `$procmux$` mux-lowering artifact, an
`rtlil.cc` internal, or a `$0\` next-state temporary. -/
def keep_gold_candidate (w : Wire) : Bool :=
  (match w.hdlname with
   | some o =>
     if o = "" then true
     else !(o = "clock" || o = "reset" || startsWithStr o "io_")
   | none => true)
  && !(containsSubStr "clk2fflogic" w.name)
  && !(startsWithStr w.name "\\in_" || startsWithStr w.name "\\trigger")
  && !(startsWithStr w.name "\\gold_" || startsWithStr w.name "\\gate_")
  && !(containsSubStr "$procmux$" w.name)
  && !(containsSubStr "rtlil.cc" w.name)
  && !(containsSubStr "$0\\" w.name)

/-- Model of `filter_gold_candidates`: the loop with its chain of `continue`s,
appending the survivors in input order. -/
def filter_gold_candidates : List Wire → List Wire
  | [] => []
  | w :: ws =>
    if keep_gold_candidate w then w :: filter_gold_candidates ws
    else filter_gold_candidates ws

/-- Step 4 of `main`: the filtered candidates further restricted to the
resolved target's width. -/
def width_matched_candidates (gold_wires : List Wire) (target_width : Nat) :
    List Wire :=
  (filter_gold_candidates gold_wires).filter (fun w => w.width == target_width)

/-- The one `sat` command `run_proofs` emits per candidate, for the
bounded and the unbounded (k-induction) strategy. -/
def satCommand (bounded : Bool) (wire_name gate_target_wire : String) : String :=
  if bounded then
    "sat -prove " ++ wire_name ++ " " ++ gate_target_wire ++
      " -set-init-zero -seq 2\n"
  else
    "sat -tempinduct -prove trigger 0 -prove " ++ wire_name ++ " " ++
      gate_target_wire ++ " -set-init-zero -seq 2 miter\n"

/-- The candidate loop of `run_proofs`: one `sat` command per candidate,
appended in candidate order. -/
def proof_sat_commands (bounded : Bool) (gate_target_wire : String) :
    List Wire → List String
  | [] => []
  | c :: cs =>
    satCommand bounded c.name gate_target_wire ::
      proof_sat_commands bounded gate_target_wire cs

/-- The whole script `run_proofs` hands to one backend invocation: the
shared miter-construction script followed by all sat commands in order. -/
def run_proofs_script (miter_script : String) (bounded : Bool)
    (gate_target_wire : String) (candidates : List Wire) : String :=
  miter_script ++ String.join (proof_sat_commands bounded gate_target_wire candidates)

/-- Marker classification of one backend output line in `run_proofs`:
`'SUCCESS!' in line` wins over `'FAIL!' in line`, other lines carry no
marker. -/
def marker_of_line (line : String) : Option Bool :=
  if containsSubStr "SUCCESS!" line then some true
  else if containsSubStr "FAIL!" line then some false
  else none

/-- The result loop of `run_proofs` over the split output, carried with
the still-unconsumed candidates instead of the running index
`result_idx` (a marker beyond the last candidate neither emits a result
nor moves the index, exactly the `result_idx < len(candidates)` guard). -/
def proof_results_go (cands : List Wire) : List String → List (Wire × Bool)
  | [] => []
  | line :: rest =>
    match marker_of_line line with
    | some b =>
      match cands with
      | [] => proof_results_go [] rest
      | c :: cs => (c, b) :: proof_results_go cs rest
    | none => proof_results_go cands rest

/-- The result interpretation of `run_proofs`: scan the combined output
for SUCCESS/FAIL markers and zip them positionally onto the submitted
candidates. -/
def run_proofs_results (candidates : List Wire) (output : String) :
    List (Wire × Bool) :=
  proof_results_go candidates (splitLines output)

/-- The ordered marker stream of a backend output. -/
def output_markers (output : String) : List Bool :=
  (splitLines output).filterMap marker_of_line

/-! ## `experiment/find_correspondences.py`: per-pair equivalence testing -/

/-- Outcome of one backend invocation in `test_equivalence`: the process
produced output text, or `subprocess.run` raised `TimeoutExpired`. -/
inductive BackendResponse where
  | timeout
  | output (s : String)
deriving DecidableEq, Repr

/-- Scanning `re.findall(r'(\d+) objects', ...)`-style extraction: at each
position a non-empty greedy digit run directly followed by the literal is
a match and scanning resumes after the literal; any failure advances one
character, as the `re` scanner does.  The fuel is the input length, which
bounds the number of scanning steps. -/
def scan_nums_go (lit : List Char) : Nat → List Char → List Nat
  | 0, _ => []
  | _ + 1, [] => []
  | fuel + 1, c :: rest =>
    if c.isDigit then
      let ds := (c :: rest).takeWhile Char.isDigit
      let r := (c :: rest).dropWhile Char.isDigit
      if lit.isPrefixOf r then
        natOfDigits ds :: scan_nums_go lit fuel (r.drop lit.length)
      else scan_nums_go lit fuel rest
    else scan_nums_go lit fuel rest

/-- All `(\d+) objects`-style matches of an output text. -/
def findall_nums (lit : List Char) (cs : List Char) : List Nat :=
  scan_nums_go lit cs.length cs

/-- Scanning `re.search` for `<pre>(\d+)<post>`: the first position where
the leading literal, a non-empty digit run and the trailing literal all
match, returning the run's value. -/
def scan_pre_num_post (pre post : List Char) : Nat → List Char → Option Nat
  | 0, _ => none
  | _ + 1, [] => none
  | fuel + 1, c :: rest =>
    if pre.isPrefixOf (c :: rest) then
      let after := (c :: rest).drop pre.length
      let ds := after.takeWhile Char.isDigit
      if ds.isEmpty then scan_pre_num_post pre post fuel rest
      else if post.isPrefixOf (after.dropWhile Char.isDigit) then
        some (natOfDigits ds)
      else scan_pre_num_post pre post fuel rest
    else scan_pre_num_post pre post fuel rest

/-- The output analysis of `test_equivalence` after a completed backend
run: equiv_add errors fail; fewer than two `(\d+) objects` counts fail;
no cells added (`after - before <= 0`) fails; any
`Unproven $equiv $auto$equiv_add` line fails; otherwise the pair is
proven exactly when the reported proven-cell count is positive. -/
def parse_equiv_output (o : String) : Bool :=
  if containsSubStr "Error in gold signal" o
      || containsSubStr "Error in gate signal" o then false
  else
    match findall_nums " objects".toList o.toList with
    | before :: after :: _ =>
      if after ≤ before then false
      else if containsSubStr "Unproven $equiv $auto$equiv_add" o then false
      else
        match scan_pre_num_post "Of those cells ".toList
            " are proven".toList o.toList.length o.toList with
        | some proven => decide (0 < proven)
        | none => false
    | _ => false

/-- Model of `test_equivalence`: a same-named pair short-circuits to `True` before
any backend work; otherwise a timed-out invocation is `False` and a
completed one is judged by its output. -/
def test_equivalence (gold_sig gate_sig : String) (resp : BackendResponse) :
    Bool :=
  if gold_sig = gate_sig then true
  else
    match resp with
    | .timeout => false
    | .output o => parse_equiv_output o

/-- What one iteration of the discovery loop of `main` observed for its
pair: the `test_equivalence` call returned with some backend response, or
the iteration raised and fell into the `except` arms. -/
inductive PairOutcome where
  | resp (r : BackendResponse)
  | raised
deriving DecidableEq, Repr

/-- Whether one discovery-loop iteration records its pair as a
correspondence: a raised iteration records nothing (`except ... pass`,
and the timeout arm only prints), a returned one records the pair exactly
when `test_equivalence` held. -/
def pair_decision (gold_sig gate_sig : String) : PairOutcome → Bool
  | .resp r => test_equivalence gold_sig gate_sig r
  | .raised => false

/-- The discovery loop of `main` over the width-matched pairs: each pair
is judged only by its own backend outcome, and the surviving pairs are
collected in loop order. -/
def discovery_correspondences (pairs : List (String × String))
    (oracle : String × String → PairOutcome) : List (String × String) :=
  pairs.filter (fun p => pair_decision p.1 p.2 (oracle p))

/-! ## `experiment/demo_fifo/python/trace_fifo_signals.py`:
source-location list parsing and re-rendering -/

/-- The negative lookahead `(?![,}])` of the simple-form regex, applied to
the character following the column digits (end of string passes). -/
def isCommaOrBrace : Option Char → Bool
  | some c => c = ',' || c = '}'
  | none => false

/-- Anchored attempt of the simple-form regex `:(\d+):(\d+)(?![,}])` at
one position, returning the captured pair and the rest of the input after
the match.  The greedy column run backtracks exactly one digit when the
lookahead rejects the character after the full run (the shorter run is
then followed by a digit, which the lookahead accepts); a one-digit
column with a rejected lookahead fails the position entirely. -/
def trySimpleAt : List Char → Option ((Nat × Nat) × List Char)
  | [] => none
  | c :: r1 =>
    if c = ':' then
      let d1 := r1.takeWhile Char.isDigit
      let r2 := r1.dropWhile Char.isDigit
      if d1.isEmpty then none
      else
        match r2 with
        | c2 :: r3 =>
          if c2 = ':' then
            let d2 := r3.takeWhile Char.isDigit
            let r4 := r3.dropWhile Char.isDigit
            if d2.isEmpty then none
            else if isCommaOrBrace r4.head? then
              if 2 ≤ d2.length then
                some ((natOfDigits d1, natOfDigits d2.dropLast),
                  d2.drop (d2.length - 1) ++ r4)
              else none
            else some ((natOfDigits d1, natOfDigits d2), r4)
          else none
        | [] => none
    else none

/-- The scan of `re.findall` for the simple form: try each position, jump
past a match, advance one character on failure.  The fuel is the input
length; a match always consumes at least one character, so the fuel never
runs out before the input does. -/
def findallSimpleGo : Nat → List Char → List (Nat × Nat)
  | 0, _ => []
  | _ + 1, [] => []
  | fuel + 1, c :: rest =>
    match trySimpleAt (c :: rest) with
    | some (p, after) => p :: findallSimpleGo fuel after
    | none => findallSimpleGo fuel rest

/-- All simple-form matches of a location string. -/
def findallSimple (cs : List Char) : List (Nat × Nat) :=
  findallSimpleGo cs.length cs

/-- Digit-or-comma characters, the `[0-9,]` class of the grouped-form
regex. -/
def isDigitOrComma (c : Char) : Bool :=
  c.isDigit || c = ','

/-- Anchored attempt of the grouped-form regex `:(\d+):\{([0-9,]+)\}` at
one position: the greedy `[0-9,]+` body must be directly followed by the
closing brace (no shorter body can be, by the same class), and the body
is split on commas into the column list.  Python's `int` would fail on an
empty piece (as in `:{,}`); such degenerate bodies never arise from the
annotation formats considered here, and the model reads an empty piece as
zero. -/
def tryGroupedAt : List Char → Option ((Nat × List Nat) × List Char)
  | [] => none
  | c :: r1 =>
    if c = ':' then
      let d1 := r1.takeWhile Char.isDigit
      let r2 := r1.dropWhile Char.isDigit
      if d1.isEmpty then none
      else
        match r2 with
        | c2 :: c3 :: r3 =>
          if c2 = ':' ∧ c3 = '{' then
            let body := r3.takeWhile isDigitOrComma
            let r4 := r3.dropWhile isDigitOrComma
            if body.isEmpty then none
            else
              match r4 with
              | c4 :: r5 =>
                if c4 = '}' then
                  some ((natOfDigits d1,
                    (splitOnCharL ',' body).map natOfDigits), r5)
                else none
              | [] => none
          else none
        | _ => none
    else none

/-- The scan of `re.findall` for the grouped form. -/
def findallGroupedGo : Nat → List Char → List (Nat × List Nat)
  | 0, _ => []
  | _ + 1, [] => []
  | fuel + 1, c :: rest =>
    match tryGroupedAt (c :: rest) with
    | some (p, after) => p :: findallGroupedGo fuel after
    | none => findallGroupedGo fuel rest

/-- All grouped-form matches of a location string. -/
def findallGrouped (cs : List Char) : List (Nat × List Nat) :=
  findallGroupedGo cs.length cs

/-- Model of `parse_chisel_locations`: the simple-form pairs first, then one pair
per listed column of every grouped match, in match order. -/
def parse_chisel_locations (loc_string : List Char) : List (Nat × Nat) :=
  findallSimple loc_string ++
    (findallGrouped loc_string).flatMap (fun g => g.2.map (fun c => (g.1, c)))

/-- Insertion of one element into a sorted list, the auxiliary step of the
model of Python's stable `sorted`. -/
def insertSorted (x : Nat) : List Nat → List Nat
  | [] => [x]
  | y :: ys => if x ≤ y then x :: y :: ys else y :: insertSorted x ys

/-- Python `sorted` on a list of numbers, modelled as stable insertion
sort. -/
def pySorted (l : List Nat) : List Nat :=
  l.foldr insertSorted []

/-- Insertion of one grouped entry into the per-line grouping dictionary
`loc_by_line`, preserving first-occurrence key order. -/
def addToLineGroup : List (Nat × List Nat) → Nat → Nat → List (Nat × List Nat)
  | [], l, c => [(l, [c])]
  | (l', cs) :: rest, l, c =>
    if l' = l then (l', cs ++ [c]) :: rest
    else (l', cs) :: addToLineGroup rest l c

/-- The `loc_by_line` dictionary of `main`: columns grouped per line, the
lines in first-occurrence order and each line's columns in input order. -/
def groupByLine (locs : List (Nat × Nat)) : List (Nat × List Nat) :=
  locs.foldl (fun acc lc => addToLineGroup acc lc.1 lc.2) []

/-- Insertion step for sorting the grouped entries by line number,
`sorted(loc_by_line.items())`. -/
def insertByLine (x : Nat × List Nat) : List (Nat × List Nat) → List (Nat × List Nat)
  | [] => [x]
  | y :: ys => if x.1 ≤ y.1 then x :: y :: ys else y :: insertByLine x ys

/-- Python `sorted` on the grouped `(line, columns)` entries, by line. -/
def sortedByLine (l : List (Nat × List Nat)) : List (Nat × List Nat) :=
  l.foldr insertByLine []

/-- Comma-joined concatenation, Python `','.join`. -/
def intercalateComma : List (List Char) → List Char
  | [] => []
  | [x] => x
  | x :: xs => x ++ ',' :: intercalateComma xs

/-- Comma-space-joined concatenation, Python `', '.join`. -/
def intercalateCommaSpace : List (List Char) → List Char
  | [] => []
  | [x] => x
  | x :: xs => x ++ ',' :: ' ' :: intercalateCommaSpace xs

/-- One rendered part of the re-rendered location list in `main`: a line
with several columns renders the grouped form over its sorted columns,
a line with one column renders the simple form. -/
def renderPart (g : Nat × List Nat) : List Char :=
  if 2 ≤ g.2.length then
    ':' :: renderNatDigits g.1 ++ ':' :: '{' ::
      intercalateComma ((pySorted g.2).map renderNatDigits) ++ ['}']
  else
    ':' :: renderNatDigits g.1 ++ ':' :: renderNatDigits (g.2.headD 0)

/-- The re-rendered location string of `main`: with more than one parsed
pair, the pairs are grouped per line, the lines sorted, the first three
parts rendered and joined with `', '` (the trailing `"(ambiguous)"`
display suffix is not part of the location text); with exactly one pair
the simple form of that pair is shown. -/
def renderLocs (locs : List (Nat × Nat)) : List Char :=
  if 2 ≤ locs.length then
    intercalateCommaSpace (((sortedByLine (groupByLine locs)).take 3).map renderPart)
  else
    match locs with
    | lc :: _ => ':' :: renderNatDigits lc.1 ++ ':' :: renderNatDigits lc.2
    | [] => []

/-- A standalone simple-form location string `:{line}:{col}`, the first
supported annotation format. -/
def simpleLocStr (line col : Nat) : List Char :=
  ':' :: (renderNatDigits line ++ ':' :: renderNatDigits col)

/-- A standalone grouped-form location string `:{line}:{c1,...,ck}`, the
second supported annotation format. -/
def groupedLocStr (line : Nat) (cols : List Nat) : List Char :=
  ':' :: (renderNatDigits line ++ ':' :: '{' ::
    (intercalateComma (cols.map renderNatDigits) ++ ['}']))

/-! ## Helper lemmas about the embedded operations -/

theorem proof_results_go_eq_zip (lines : List String) :
    ∀ cands, proof_results_go cands lines =
      cands.zip (lines.filterMap marker_of_line) := by
  induction lines with
  | nil => intro cands; cases cands <;> rfl
  | cons line rest ih =>
    intro cands
    cases h : marker_of_line line with
    | none => simp [proof_results_go, List.filterMap_cons, h, ih]
    | some b =>
      cases cands with
      | nil => simp [proof_results_go, h, ih]
      | cons c cs => simp [proof_results_go, List.filterMap_cons, h, ih]

theorem filter_gold_candidates_eq_filter (l : List Wire) :
    filter_gold_candidates l = l.filter keep_gold_candidate := by
  induction l with
  | nil => rfl
  | cons w ws ih =>
    by_cases h : keep_gold_candidate w <;>
      simp [filter_gold_candidates, List.filter_cons, h, ih]

theorem filter_head_eq_find {α : Type} (p : α → Bool) :
    ∀ l : List α, (l.filter p).head? = l.find? p := by
  intro l
  induction l with
  | nil => rfl
  | cons x xs ih =>
    by_cases h : p x <;> simp [List.filter_cons, List.find?, h, ih]

theorem proof_sat_commands_eq_map (b : Bool) (t : String) (cs : List Wire) :
    proof_sat_commands b t cs = cs.map (fun c => satCommand b c.name t) := by
  induction cs with
  | nil => rfl
  | cons c cs ih => simp [proof_sat_commands, ih]

/-! ## The claims -/

/-- C1 counterexample: submitting two candidates against a backend stream
carrying a single success marker returns one silently truncated result —
`run_proofs` raises nothing, and no `IntegrityError` exists anywhere in
the repository — refuting the claim that exactly N results come back or
an `IntegrityError` is raised. -/
theorem run_proofs_results_mismatch_cex :
    (run_proofs_results [⟨"\\a", 1, none, none⟩, ⟨"\\b", 1, none, none⟩]
      "SUCCESS!").length = 1 ∧
    (run_proofs_results [⟨"\\a", 1, none, none⟩, ⟨"\\b", 1, none, none⟩]
      "SUCCESS!").length ≠ 2 := by
  decide

/-- C1 (amended): the Result Interpreter returns exactly
`min N (number of markers)` results, positionally zipped onto the
candidates in submission order; markers beyond the candidate count are
ignored, and with fewer markers than candidates the result list is
silently truncated — no `IntegrityError` is raised. -/
theorem run_proofs_results_positional (candidates : List Wire) (output : String) :
    run_proofs_results candidates output =
      candidates.zip (output_markers output) ∧
    (run_proofs_results candidates output).length =
      min candidates.length (output_markers output).length := by
  have h : run_proofs_results candidates output =
      candidates.zip (output_markers output) :=
    proof_results_go_eq_zip (splitLines output) candidates
  exact ⟨h, by rw [h, List.length_zip]⟩

/-- C4: the width-matched candidate set is exactly the order-preserving
filter of the gold table by the candidate predicate (no clock/reset, no
`io_` port, no `clk2fflogic` state-conversion internal, no miter
infrastructure, no `$procmux$` mux artifact, no `rtlil.cc` internal, no
`$0\` next-state temporary) conjoined with exact width equality; as a
filter of a pure predicate it preserves relative order (it is a
subsequence of the input) and depends on nothing besides the table and
the width. -/
theorem width_matched_candidates_spec (gold_wires : List Wire) (target_width : Nat) :
    width_matched_candidates gold_wires target_width =
      gold_wires.filter (fun w => keep_gold_candidate w && w.width == target_width) ∧
    (width_matched_candidates gold_wires target_width).Sublist gold_wires ∧
    (∀ w, w ∈ width_matched_candidates gold_wires target_width ↔
      w ∈ gold_wires ∧ keep_gold_candidate w = true ∧ w.width = target_width) := by
  have h : width_matched_candidates gold_wires target_width =
      gold_wires.filter (fun w => keep_gold_candidate w && w.width == target_width) := by
    rw [width_matched_candidates, filter_gold_candidates_eq_filter,
      List.filter_filter]
    exact List.filter_congr (fun w _ => by rw [Bool.and_comm])
  refine ⟨h, ?_, ?_⟩
  · rw [h]; exact List.filter_sublist _
  · intro w
    rw [h, List.mem_filter]
    simp [Bool.and_eq_true]

/-- C8: the Candidate Filter is idempotent — filtering its own output
changes nothing, since survival is decided per signal by a fixed
predicate. -/
theorem filter_gold_candidates_idem (l : List Wire) :
    filter_gold_candidates (filter_gold_candidates l) = filter_gold_candidates l := by
  rw [filter_gold_candidates_eq_filter, filter_gold_candidates_eq_filter,
    List.filter_filter]
  simp

/-- C5: the dispatcher emits exactly one `sat` equivalence query per
candidate, in candidate-list order with no reordering, deduplication or
splitting — the command list is precisely the map of the per-candidate
command over the candidate list — and all of them are concatenated after
the one shared miter-construction script into the single script text of
one backend invocation. -/
theorem run_proofs_batch_spec (miter_script : String) (bounded : Bool)
    (gate_target_wire : String) (candidates : List Wire) :
    proof_sat_commands bounded gate_target_wire candidates =
      candidates.map (fun c => satCommand bounded c.name gate_target_wire) ∧
    (proof_sat_commands bounded gate_target_wire candidates).length =
      candidates.length ∧
    (∀ i : Nat, (proof_sat_commands bounded gate_target_wire candidates)[i]? =
      candidates[i]?.map (fun c => satCommand bounded c.name gate_target_wire)) ∧
    run_proofs_script miter_script bounded gate_target_wire candidates =
      miter_script ++ String.join
        (candidates.map (fun c => satCommand bounded c.name gate_target_wire)) := by
  have h := proof_sat_commands_eq_map bounded gate_target_wire candidates
  refine ⟨h, by rw [h, List.length_map], ?_, ?_⟩
  · intro i
    rw [h, List.getElem?_map]
  · rw [run_proofs_script, h]

/-- C2: target resolution builds the exact span key
`"<gate path>:<line>.<startCol>-<line>.<endCol>"`, returns every
gate-side signal whose provenance string contains that key as a
substring (in table-scan order, as a subsequence of the catalogue), and
on a non-empty match list `main` selects `matches[0]`, which is the
first matching signal in table-scan order. -/
theorem find_gate_target_spec (gate_wires : List Wire) (gate_abs : String)
    (line start_col end_col : Nat) :
    target_src_key gate_abs line start_col end_col =
      gate_abs ++ ":" ++ String.mk (renderNatDigits line) ++ "." ++
        String.mk (renderNatDigits start_col) ++ "-" ++
        String.mk (renderNatDigits line) ++ "." ++
        String.mk (renderNatDigits end_col) ∧
    (∀ w, w ∈ find_gate_target gate_wires gate_abs line start_col end_col ↔
      w ∈ gate_wires ∧ ∃ s, w.src = some s ∧
        containsSubStr (target_src_key gate_abs line start_col end_col) s = true) ∧
    (find_gate_target gate_wires gate_abs line start_col end_col).Sublist
      gate_wires ∧
    (find_gate_target gate_wires gate_abs line start_col end_col).head? =
      gate_wires.find? (matchesTargetKey gate_abs line start_col end_col) ∧
    resolve_gate_target gate_wires gate_abs line start_col end_col =
      (gate_wires.find? (matchesTargetKey gate_abs line start_col end_col)).elim
        (.err (gate_catalogue gate_wires)) ResolveOutcome.ok := by
  have hhead : (find_gate_target gate_wires gate_abs line start_col end_col).head? =
      gate_wires.find? (matchesTargetKey gate_abs line start_col end_col) :=
    filter_head_eq_find _ gate_wires
  refine ⟨rfl, ?_, List.filter_sublist _, hhead, ?_⟩
  · intro w
    rw [find_gate_target, List.mem_filter]
    constructor
    · rintro ⟨hm, hk⟩
      refine ⟨hm, ?_⟩
      unfold matchesTargetKey at hk
      cases hs : w.src with
      | none => rw [hs] at hk; exact absurd hk (by simp)
      | some s => rw [hs] at hk; exact ⟨s, rfl, hk⟩
    · rintro ⟨hm, s, hs, hc⟩
      exact ⟨hm, by unfold matchesTargetKey; rw [hs]; exact hc⟩
  · rw [resolve_gate_target]
    cases hf : find_gate_target gate_wires gate_abs line start_col end_col with
    | nil =>
      have : gate_wires.find? (matchesTargetKey gate_abs line start_col end_col)
          = none := by rw [← hhead, hf]; rfl
      rw [this]; rfl
    | cons m rest =>
      have : gate_wires.find? (matchesTargetKey gate_abs line start_col end_col)
          = some m := by rw [← hhead, hf]; rfl
      rw [this]; rfl

/-- C3 counterexample: a gate-side signal carrying only an origin tag and
no provenance attribute (as `parse_dump` produces for hdl-tagged wires
without a `\src` line) is dropped from the no-match diagnostic, which is
therefore empty although the gate catalogue holds a signal — refuting
the claim that the full catalogue is shown as a non-empty diagnostic. -/
theorem resolve_diagnostic_cex :
    find_gate_target [⟨"$aux", 2, none, some "gate foo"⟩] "/g.sv" 1 2 3 = [] ∧
    resolve_gate_target [⟨"$aux", 2, none, some "gate foo"⟩] "/g.sv" 1 2 3 =
      .err [] := by
  decide

/-- C3 (amended): when zero gate-side signals match the resolved
provenance key, resolution fails and the process exits non-zero, and the
diagnostic catalogue lists name, width and shortened provenance for
exactly those gate signals that carry a non-empty provenance string —
signals without one are omitted, so the diagnostic may be empty. -/
theorem resolve_no_match_spec (gate_wires : List Wire) (gate_abs : String)
    (line start_col end_col : Nat)
    (h : find_gate_target gate_wires gate_abs line start_col end_col = []) :
    resolve_gate_target gate_wires gate_abs line start_col end_col =
      .err (gate_catalogue gate_wires) ∧
    resolve_exit_code
      (resolve_gate_target gate_wires gate_abs line start_col end_col) = 1 ∧
    (∀ w ∈ gate_wires, truthyOpt w.src = true →
      ∃ e ∈ gate_catalogue gate_wires, catalogue_entry w = some e) := by
  have hres : resolve_gate_target gate_wires gate_abs line start_col end_col =
      .err (gate_catalogue gate_wires) := by
    rw [resolve_gate_target, h]
  refine ⟨hres, by rw [hres]; rfl, ?_⟩
  intro w hw hts
  have hsome : (catalogue_entry w).isSome = true := by
    unfold catalogue_entry
    by_cases hh : truthyOpt w.hdlname = true
    · rw [hts, hh]; rfl
    · rw [hts]
      simp only [Bool.true_and]
      rw [Bool.not_eq_true] at hh
      rw [hh]
      rfl
  obtain ⟨e, he⟩ := Option.isSome_iff_exists.mp hsome
  exact ⟨e, List.mem_filterMap.mpr ⟨w, hw, he⟩, he⟩

/-- Witness for the amended C3 at a concrete catalogue: one gate signal
with a provenance that does not contain the key `"/g.sv:1.2-1.3"`. -/
theorem resolve_no_match_spec_witness :
    resolve_gate_target [⟨"\\w1", 16, some "/g.sv:9.9-9.9", some "x"⟩]
      "/g.sv" 1 2 3 =
      .err (gate_catalogue [⟨"\\w1", 16, some "/g.sv:9.9-9.9", some "x"⟩]) ∧
    resolve_exit_code (resolve_gate_target
      [⟨"\\w1", 16, some "/g.sv:9.9-9.9", some "x"⟩] "/g.sv" 1 2 3) = 1 ∧
    (∀ w ∈ [(⟨"\\w1", 16, some "/g.sv:9.9-9.9", some "x"⟩ : Wire)],
      truthyOpt w.src = true →
      ∃ e ∈ gate_catalogue [⟨"\\w1", 16, some "/g.sv:9.9-9.9", some "x"⟩],
        catalogue_entry w = some e) :=
  resolve_no_match_spec [⟨"\\w1", 16, some "/g.sv:9.9-9.9", some "x"⟩]
    "/g.sv" 1 2 3 (by decide)

/-- C10: in cross-discovery mode a pair whose gold and gate signal names
coincide is judged proven for every possible backend response — even a
timeout — because `test_equivalence` returns before any backend work;
the answer is therefore independent of whatever logic the two designs
compute for that signal. -/
theorem test_equivalence_same_name (s : String) (resp : BackendResponse) :
    test_equivalence s s resp = true := by
  unfold test_equivalence
  rw [if_pos rfl]

/-- C9: in cross-discovery mode a pair with distinct names whose backend
invocation times out is judged not proven; one whose output carries an
`equiv_add` error marker is judged not proven; an iteration that raises
records nothing; and whether a pair is collected as a correspondence
depends only on that pair's own backend outcome, so failing one pair's
invocation never changes any sibling pair's result. -/
theorem discovery_error_isolation :
    (∀ gold_sig gate_sig : String, gold_sig ≠ gate_sig →
      test_equivalence gold_sig gate_sig .timeout = false) ∧
    (∀ (gold_sig gate_sig o : String), gold_sig ≠ gate_sig →
      (containsSubStr "Error in gold signal" o = true ∨
       containsSubStr "Error in gate signal" o = true) →
      test_equivalence gold_sig gate_sig (.output o) = false) ∧
    (∀ gold_sig gate_sig : String,
      pair_decision gold_sig gate_sig .raised = false) ∧
    (∀ (pairs : List (String × String))
       (oracle oracle' : String × String → PairOutcome) (q : String × String),
      oracle q = oracle' q →
      (q ∈ discovery_correspondences pairs oracle ↔
       q ∈ discovery_correspondences pairs oracle')) := by
  refine ⟨?_, ?_, ?_, ?_⟩
  · intro g1 g2 hne
    unfold test_equivalence
    rw [if_neg hne]
  · intro g1 g2 o hne herr
    unfold test_equivalence
    rw [if_neg hne]
    show parse_equiv_output o = false
    unfold parse_equiv_output
    rcases herr with h | h <;> simp [h]
  · intro g1 g2; rfl
  · intro pairs oracle oracle' q hq
    unfold discovery_correspondences
    rw [List.mem_filter, List.mem_filter, hq]

/-- Witness for C9: a timed-out distinct-name pair, an errored one, a
raised iteration, and two oracles that agree on the pair `("c", "d")`
while one of them times the sibling pair `("a", "b")` out. -/
theorem discovery_error_isolation_witness :
    test_equivalence "a" "b" .timeout = false ∧
    test_equivalence "a" "b" (.output "Error in gold signal x") = false ∧
    pair_decision "a" "b" .raised = false ∧
    (("c", "d") ∈ discovery_correspondences [("a", "b"), ("c", "d")]
        (fun p => if p = ("a", "b") then .resp .timeout else .resp .timeout) ↔
     ("c", "d") ∈ discovery_correspondences [("a", "b"), ("c", "d")]
        (fun p => if p = ("a", "b") then .raised else .resp .timeout)) :=
  ⟨discovery_error_isolation.1 "a" "b" (by decide),
   discovery_error_isolation.2.1 "a" "b" "Error in gold signal x" (by decide)
     (Or.inl (by decide)),
   discovery_error_isolation.2.2.1 "a" "b",
   discovery_error_isolation.2.2.2 [("a", "b"), ("c", "d")] _ _ ("c", "d")
     (by decide)⟩
theorem eatLit_isPrefixOf {lit cs rest : List Char} (h : eatLit lit cs = some rest) :
    lit.isPrefixOf cs = true := by
  unfold eatLit at h
  by_cases hp : lit.isPrefixOf cs = true
  · exact hp
  · rw [if_neg hp] at h
    simp at h

theorem matchWire_wire_head {cs : List Char} {p : Nat × List Char}
    (h : matchWire cs = some p) : "wire".toList.isPrefixOf cs = true := by
  unfold matchWire at h
  cases he : eatLit "wire".toList cs with
  | none => rw [he] at h; simp at h
  | some r => exact eatLit_isPrefixOf he

theorem matchAttrVal_none_of_wire (key : String) {cs : List Char}
    {p : Nat × List Char} (h : matchWire cs = some p) :
    matchAttrVal key cs = none := by
  have hw := matchWire_wire_head h
  cases cs with
  | nil => simp [List.isPrefixOf] at hw
  | cons c rest =>
    have hc : c = 'w' := by
      rw [show "wire".toList = 'w' :: "ire".toList from rfl,
        List.isPrefixOf_cons₂] at hw
      simp only [Bool.and_eq_true, beq_iff_eq] at hw
      exact hw.1.symm
    subst hc
    have hea : eatLit "attribute".toList ('w' :: rest) = none := by
      unfold eatLit
      rw [if_neg]
      rw [show "attribute".toList = 'a' :: "ttribute".toList from rfl,
        List.isPrefixOf_cons₂]
      simp
    unfold matchAttrVal
    rw [hea]
    rfl

theorem classifyWire_none_attrs (ga go n : String) (w : Nat) :
    classifyWire ga go none none n w = none := rfl

/-- Equation of `parse_dump_step` at a wire-declaration line: the pending
attributes classify the declared wire and the pending state comes out
cleared. -/
theorem parse_dump_step_wire (ga go : String) (st : ParseState)
    (rawLine : String) {width : Nat} {wname : List Char}
    (h : matchWire (pyStrip rawLine.toList) = some (width, wname)) :
    parse_dump_step ga go st rawLine =
      match classifyWire ga go st.current_src st.current_hdlname
          (String.mk wname) width with
      | some (true, w) => ⟨none, none, st.gate_wires, st.gold_wires ++ [w]⟩
      | some (false, w) => ⟨none, none, st.gate_wires ++ [w], st.gold_wires⟩
      | none => ⟨none, none, st.gate_wires, st.gold_wires⟩ := by
  have hs : matchSrcAttr (pyStrip rawLine.toList) = none :=
    matchAttrVal_none_of_wire "\\src" h
  have hh : matchHdlAttr (pyStrip rawLine.toList) = none :=
    matchAttrVal_none_of_wire "\\hdlname" h
  unfold parse_dump_step
  simp only []
  rw [hs, hh, h]

/-- C6: a wire-declaration line consumes the pending attributes and leaves
the pending state cleared; a line that is neither an attribute line (by
the `attribute` prefix) nor a declaration clears the pending state and
touches nothing else; attribute lines only record a pending value and
never extend the signal tables; and a declaration directly following
another declaration is classified with no pending attributes at all, so
an attribute accumulated for one signal never attaches to a later,
unrelated declaration. -/
theorem parse_dump_pending_attr_state (ga go : String) (st : ParseState)
    (line l2 : String) :
    ((matchWire (pyStrip line.toList)).isSome = true →
      (parse_dump_step ga go st line).current_src = none ∧
      (parse_dump_step ga go st line).current_hdlname = none) ∧
    (matchSrcAttr (pyStrip line.toList) = none →
     matchHdlAttr (pyStrip line.toList) = none →
     matchWire (pyStrip line.toList) = none →
     "attribute".toList.isPrefixOf (pyStrip line.toList) = false →
      parse_dump_step ga go st line =
        { st with current_src := none, current_hdlname := none }) ∧
    ((matchSrcAttr (pyStrip line.toList)).isSome = true ∨
     (matchHdlAttr (pyStrip line.toList)).isSome = true →
      (parse_dump_step ga go st line).gold_wires = st.gold_wires ∧
      (parse_dump_step ga go st line).gate_wires = st.gate_wires) ∧
    ((matchWire (pyStrip line.toList)).isSome = true →
     (matchWire (pyStrip l2.toList)).isSome = true →
      (parse_dump_step ga go (parse_dump_step ga go st line) l2).gold_wires =
        (parse_dump_step ga go st line).gold_wires ∧
      (parse_dump_step ga go (parse_dump_step ga go st line) l2).gate_wires =
        (parse_dump_step ga go st line).gate_wires) := by
  have part1 : ∀ (st' : ParseState) (l : String),
      (matchWire (pyStrip l.toList)).isSome = true →
      (parse_dump_step ga go st' l).current_src = none ∧
      (parse_dump_step ga go st' l).current_hdlname = none := by
    intro st' l hw
    obtain ⟨⟨width, wname⟩, hp⟩ := Option.isSome_iff_exists.mp hw
    rw [parse_dump_step_wire ga go st' l hp]
    cases hc : classifyWire ga go st'.current_src st'.current_hdlname
        (String.mk wname) width with
    | none => exact ⟨rfl, rfl⟩
    | some bw =>
      obtain ⟨b, w⟩ := bw
      cases b <;> exact ⟨rfl, rfl⟩
  have aux : ∀ (st' : ParseState) (l : String),
      st'.current_src = none → st'.current_hdlname = none →
      (matchWire (pyStrip l.toList)).isSome = true →
      (parse_dump_step ga go st' l).gold_wires = st'.gold_wires ∧
      (parse_dump_step ga go st' l).gate_wires = st'.gate_wires := by
    intro st' l hcs hch hw
    obtain ⟨⟨width, wname⟩, hp⟩ := Option.isSome_iff_exists.mp hw
    rw [parse_dump_step_wire ga go st' l hp, hcs, hch, classifyWire_none_attrs]
    exact ⟨rfl, rfl⟩
  refine ⟨part1 st line, ?_, ?_, ?_⟩
  · intro h1 h2 h3 h4
    unfold parse_dump_step
    simp only []
    rw [h1, h2, h3, h4]
    simp
  · intro hor
    cases hms : matchSrcAttr (pyStrip line.toList) with
    | some s =>
      unfold parse_dump_step
      simp only []
      rw [hms]
      exact ⟨rfl, rfl⟩
    | none =>
      rcases hor with h1 | h2
      · rw [hms] at h1; simp at h1
      · obtain ⟨h, hh⟩ := Option.isSome_iff_exists.mp h2
        unfold parse_dump_step
        simp only []
        rw [hms, hh]
        exact ⟨rfl, rfl⟩
  · intro h1 h2
    obtain ⟨hcs, hch⟩ := part1 st line h1
    exact aux (parse_dump_step ga go st line) l2 hcs hch h2

/-- Witness for C6 at concrete lines: a wire declaration consuming pending
attributes, a line that is neither attribute nor declaration, an
attribute line, and two consecutive declarations. -/
theorem parse_dump_pending_attr_state_witness :
    ((parse_dump_step "/g" "/u" ⟨some "s", some "gold x", [], []⟩
        "wire width 5 \\a").current_src = none ∧
     (parse_dump_step "/g" "/u" ⟨some "s", some "gold x", [], []⟩
        "wire width 5 \\a").current_hdlname = none) ∧
    (parse_dump_step "/g" "/u" ⟨some "s", some "gold x", [], []⟩ "end" =
      ⟨none, none, [], []⟩) ∧
    ((parse_dump_step "/g" "/u" ⟨some "s", some "gold x", [], []⟩
        "attribute \\src \"/u/f.sv:2.2-2.3\"").gold_wires = [] ∧
     (parse_dump_step "/g" "/u" ⟨some "s", some "gold x", [], []⟩
        "attribute \\src \"/u/f.sv:2.2-2.3\"").gate_wires = []) ∧
    ((parse_dump_step "/g" "/u" (parse_dump_step "/g" "/u"
        ⟨some "s", some "gold x", [], []⟩ "wire width 5 \\a")
        "wire width 3 \\b").gold_wires =
      (parse_dump_step "/g" "/u" ⟨some "s", some "gold x", [], []⟩
        "wire width 5 \\a").gold_wires ∧
     (parse_dump_step "/g" "/u" (parse_dump_step "/g" "/u"
        ⟨some "s", some "gold x", [], []⟩ "wire width 5 \\a")
        "wire width 3 \\b").gate_wires =
      (parse_dump_step "/g" "/u" ⟨some "s", some "gold x", [], []⟩
        "wire width 5 \\a").gate_wires) :=
  ⟨(parse_dump_pending_attr_state "/g" "/u" ⟨some "s", some "gold x", [], []⟩
      "wire width 5 \\a" "wire width 3 \\b").1 (by decide),
   (parse_dump_pending_attr_state "/g" "/u" ⟨some "s", some "gold x", [], []⟩
      "end" "x").2.1 (by decide) (by decide) (by decide) (by decide),
   (parse_dump_pending_attr_state "/g" "/u" ⟨some "s", some "gold x", [], []⟩
      "attribute \\src \"/u/f.sv:2.2-2.3\"" "x").2.2.1 (Or.inl (by decide)),
   (parse_dump_pending_attr_state "/g" "/u" ⟨some "s", some "gold x", [], []⟩
      "wire width 5 \\a" "wire width 3 \\b").2.2.2 (by decide) (by decide)⟩

/-! ## Helper lemmas for the location-list scanners -/

theorem isEmpty_false_of_ne_nil {xs : List Char} (h : xs ≠ []) :
    xs.isEmpty = false := by
  cases xs with
  | nil => exact absurd rfl h
  | cons x t => rfl

theorem trySimpleAt_ne_colon {c : Char} (rest : List Char) (h : c ≠ ':') :
    trySimpleAt (c :: rest) = none := by
  unfold trySimpleAt
  simp only []
  rw [if_neg h]

theorem trySimpleAt_colon_nondigit {c2 : Char} (rest : List Char)
    (h : c2.isDigit = false) : trySimpleAt (':' :: c2 :: rest) = none := by
  unfold trySimpleAt
  simp only []
  simp [List.takeWhile_cons, h]

theorem findallSimpleGo_nil_input : ∀ fuel, findallSimpleGo fuel [] = []
  | 0 => rfl
  | _ + 1 => rfl

theorem findallSimpleGo_of_none :
    ∀ (fuel : Nat) (cs : List Char),
      (∀ suf, suf <:+ cs → trySimpleAt suf = none) →
      findallSimpleGo fuel cs = [] := by
  intro fuel
  induction fuel with
  | zero => intro cs _; rfl
  | succ f ih =>
    intro cs h
    cases cs with
    | nil => rfl
    | cons c rest =>
      have h0 : trySimpleAt (c :: rest) = none := h _ (List.suffix_refl _)
      simp only [findallSimpleGo, h0]
      exact ih rest (fun suf hs => h suf (hs.trans (List.suffix_cons c rest)))

theorem findallGroupedGo_nil_input : ∀ fuel, findallGroupedGo fuel [] = []
  | 0 => rfl
  | _ + 1 => rfl

theorem findallGroupedGo_of_none :
    ∀ (fuel : Nat) (cs : List Char),
      (∀ suf, suf <:+ cs → tryGroupedAt suf = none) →
      findallGroupedGo fuel cs = [] := by
  intro fuel
  induction fuel with
  | zero => intro cs _; rfl
  | succ f ih =>
    intro cs h
    cases cs with
    | nil => rfl
    | cons c rest =>
      have h0 : tryGroupedAt (c :: rest) = none := h _ (List.suffix_refl _)
      simp only [findallGroupedGo, h0]
      exact ih rest (fun suf hs => h suf (hs.trans (List.suffix_cons c rest)))

theorem trySimpleAt_none_no_colon {cs : List Char} (h : ∀ c ∈ cs, c ≠ ':') :
    ∀ suf, suf <:+ cs → trySimpleAt suf = none := by
  intro suf hs
  cases suf with
  | nil => rfl
  | cons c t =>
    exact trySimpleAt_ne_colon t (h c (hs.subset (List.mem_cons_self _ _)))

theorem trySimpleAt_through_digits (ds : List Char) (t : List Char)
    (hds : ∀ c ∈ ds, c.isDigit = true)
    (ht : ∀ suf, suf <:+ t → trySimpleAt suf = none) :
    ∀ suf, suf <:+ ds ++ t → trySimpleAt suf = none := by
  induction ds with
  | nil => simpa using ht
  | cons d ds ih =>
    intro suf hs
    rcases List.suffix_cons_iff.mp hs with rfl | hs'
    · exact trySimpleAt_ne_colon _
        (isDigit_ne_colon (hds d (List.mem_cons_self _ _)))
    · exact ih (fun c hc => hds c (List.mem_cons_of_mem _ hc)) suf hs'

theorem trySimpleAt_simple (l c : Nat) :
    trySimpleAt (simpleLocStr l c) = some ((l, c), []) := by
  have hblock := takeWhile_block Char.isDigit (renderNatDigits l) ':'
    (renderNatDigits c) (renderNatDigits_all_digit l) (by decide)
  have hall := takeWhile_all Char.isDigit (renderNatDigits c)
    (renderNatDigits_all_digit c)
  show trySimpleAt
    (':' :: (renderNatDigits l ++ ':' :: renderNatDigits c)) = _
  unfold trySimpleAt
  simp [hblock.1, hblock.2, hall.1, hall.2,
    isEmpty_false_of_ne_nil (renderNatDigits_ne_nil l),
    isEmpty_false_of_ne_nil (renderNatDigits_ne_nil c),
    natOfDigits_renderNatDigits, isCommaOrBrace]

theorem trySimpleAt_grouped_head (l : Nat) (rest : List Char) :
    trySimpleAt (':' :: (renderNatDigits l ++ ':' :: '{' :: rest)) = none := by
  have hblock := takeWhile_block Char.isDigit (renderNatDigits l) ':'
    ('{' :: rest) (renderNatDigits_all_digit l) (by decide)
  unfold trySimpleAt
  simp [hblock.1, hblock.2,
    isEmpty_false_of_ne_nil (renderNatDigits_ne_nil l),
    List.takeWhile_cons]

theorem intercalateComma_chars (ps : List (List Char))
    (h : ∀ p ∈ ps, ∀ c ∈ p, c.isDigit = true) :
    ∀ c ∈ intercalateComma ps, isDigitOrComma c = true := by
  induction ps with
  | nil => intro c hc; simp [intercalateComma] at hc
  | cons p ps ih =>
    cases ps with
    | nil =>
      intro c hc
      have := h p (List.mem_cons_self _ _) c hc
      simp [isDigitOrComma, this]
    | cons q qs =>
      intro c hc
      simp only [intercalateComma] at hc
      rcases List.mem_append.mp hc with hc | hc
      · have := h p (List.mem_cons_self _ _) c hc
        simp [isDigitOrComma, this]
      · rcases List.mem_cons.mp hc with rfl | hc
        · simp [isDigitOrComma]
        · exact ih (fun a ha => h a (List.mem_cons_of_mem _ ha)) c hc

theorem intercalateComma_ne_nil (p : List Char) (ps : List (List Char))
    (hp : p ≠ []) : intercalateComma (p :: ps) ≠ [] := by
  cases ps with
  | nil => simpa [intercalateComma] using hp
  | cons q qs => simp [intercalateComma]

theorem splitOnCharL_no_sep (sep : Char) (x : List Char)
    (h : ∀ c ∈ x, c ≠ sep) : splitOnCharL sep x = [x] := by
  induction x with
  | nil => rfl
  | cons c rest ih =>
    have hc : c ≠ sep := h c (List.mem_cons_self _ _)
    simp only [splitOnCharL, if_neg hc]
    rw [ih (fun a ha => h a (List.mem_cons_of_mem _ ha))]

theorem splitOnCharL_append_sep (sep : Char) (x t : List Char)
    (h : ∀ c ∈ x, c ≠ sep) :
    splitOnCharL sep (x ++ sep :: t) = x :: splitOnCharL sep t := by
  induction x with
  | nil => simp [splitOnCharL]
  | cons c rest ih =>
    have hc : c ≠ sep := h c (List.mem_cons_self _ _)
    simp only [List.cons_append, splitOnCharL, if_neg hc, List.append_eq]
    rw [ih (fun a ha => h a (List.mem_cons_of_mem _ ha))]

theorem splitOnCharL_intercalateComma (ps : List (List Char))
    (h : ∀ p ∈ ps, ∀ c ∈ p, c ≠ ',') :
    ps ≠ [] → splitOnCharL ',' (intercalateComma ps) = ps := by
  induction ps with
  | nil => intro hne; exact absurd rfl hne
  | cons p ps ih =>
    intro _
    cases ps with
    | nil => exact splitOnCharL_no_sep ',' p (h p (List.mem_cons_self _ _))
    | cons q qs =>
      show splitOnCharL ',' (p ++ ',' :: intercalateComma (q :: qs)) =
        p :: q :: qs
      rw [splitOnCharL_append_sep ',' p _ (h p (List.mem_cons_self _ _)),
        ih (fun a ha => h a (List.mem_cons_of_mem _ ha)) (by simp)]

theorem tryGroupedAt_none_of_no_lbrace {cs : List Char} (h : '{' ∉ cs) :
    tryGroupedAt cs = none := by
  cases cs with
  | nil => rfl
  | cons c r1 =>
    unfold tryGroupedAt
    simp only []
    by_cases hc : c = ':'
    · rw [if_pos hc]
      by_cases hd : (r1.takeWhile Char.isDigit).isEmpty = true
      · rw [if_pos hd]
      · rw [if_neg hd]
        split
        · next c2 c3 r3 heq =>
          by_cases hcc : c2 = ':' ∧ c3 = '{'
          · exfalso
            apply h
            have hmem : '{' ∈ r1.dropWhile Char.isDigit := by
              rw [heq, hcc.2]
              exact List.mem_cons_of_mem _ (List.mem_cons_self _ _)
            exact List.mem_cons_of_mem _ (mem_of_mem_dropWhile hmem)
          · rw [if_neg hcc]
        · rfl
    · rw [if_neg hc]

theorem tryGroupedAt_grouped (l : Nat) (c0 : Nat) (cols : List Nat) :
    tryGroupedAt (groupedLocStr l (c0 :: cols)) =
      some ((l, c0 :: cols), []) := by
  have hchars : ∀ c ∈ intercalateComma
      (renderNatDigits c0 :: List.map renderNatDigits cols),
      isDigitOrComma c = true := by
    refine intercalateComma_chars _ ?_
    intro p hp c hc
    rcases List.mem_cons.mp hp with rfl | hp
    · exact renderNatDigits_all_digit c0 c hc
    · rcases List.mem_map.mp hp with ⟨n, _, rfl⟩
      exact renderNatDigits_all_digit n c hc
  have hblock := takeWhile_block Char.isDigit (renderNatDigits l) ':'
    ('{' :: (intercalateComma
      (renderNatDigits c0 :: List.map renderNatDigits cols) ++ ['}']))
    (renderNatDigits_all_digit l) (by decide)
  have hbody := takeWhile_block isDigitOrComma
    (intercalateComma (renderNatDigits c0 :: List.map renderNatDigits cols))
    '}' [] hchars (by decide)
  have hne : intercalateComma
      (renderNatDigits c0 :: List.map renderNatDigits cols) ≠ [] :=
    intercalateComma_ne_nil _ _ (renderNatDigits_ne_nil c0)
  have hsplit : splitOnCharL ',' (intercalateComma
      (renderNatDigits c0 :: List.map renderNatDigits cols)) =
      renderNatDigits c0 :: List.map renderNatDigits cols := by
    refine splitOnCharL_intercalateComma _ ?_ (by simp)
    intro p hp c hc heq
    have hd : c.isDigit = true := by
      rcases List.mem_cons.mp hp with rfl | hp
      · exact renderNatDigits_all_digit c0 c hc
      · rcases List.mem_map.mp hp with ⟨n, _, rfl⟩
        exact renderNatDigits_all_digit n c hc
    subst heq
    simp at hd
  unfold groupedLocStr tryGroupedAt
  simp [hblock.1, hblock.2, hbody.1, hbody.2,
    isEmpty_false_of_ne_nil (renderNatDigits_ne_nil l),
    isEmpty_false_of_ne_nil hne, hsplit,
    natOfDigits_renderNatDigits, List.map_map, Function.comp]
  have hcomp : natOfDigits ∘ renderNatDigits = id :=
    funext natOfDigits_renderNatDigits
  rw [hcomp, List.map_id]

theorem isDigitOrComma_ne_colon {ch : Char} (h : isDigitOrComma ch = true) :
    ch ≠ ':' := by
  intro heq
  subst heq
  exact absurd h (by decide)

theorem grouped_body_chars (c0 : Nat) (cols : List Nat) :
    ∀ ch ∈ intercalateComma
      (renderNatDigits c0 :: List.map renderNatDigits cols),
      isDigitOrComma ch = true := by
  refine intercalateComma_chars _ ?_
  intro p hp ch hc
  rcases List.mem_cons.mp hp with rfl | hp
  · exact renderNatDigits_all_digit c0 ch hc
  · rcases List.mem_map.mp hp with ⟨n, _, rfl⟩
    exact renderNatDigits_all_digit n ch hc

theorem findallSimple_single {cs : List Char} {p : Nat × Nat}
    (hcs : cs ≠ []) (h : trySimpleAt cs = some (p, [])) :
    findallSimple cs = [p] := by
  cases cs with
  | nil => exact absurd rfl hcs
  | cons c rest =>
    show findallSimpleGo (rest.length + 1) (c :: rest) = [p]
    simp only [findallSimpleGo, h]
    rw [findallSimpleGo_nil_input]

theorem findallGrouped_single {cs : List Char} {p : Nat × List Nat}
    (hcs : cs ≠ []) (h : tryGroupedAt cs = some (p, [])) :
    findallGrouped cs = [p] := by
  cases cs with
  | nil => exact absurd rfl hcs
  | cons c rest =>
    show findallGroupedGo (rest.length + 1) (c :: rest) = [p]
    simp only [findallGroupedGo, h]
    rw [findallGroupedGo_nil_input]

theorem no_lbrace_simpleLocStr (l c : Nat) : '{' ∉ simpleLocStr l c := by
  intro h
  unfold simpleLocStr at h
  rcases List.mem_cons.mp h with h | h
  · exact absurd h (by decide)
  · rcases List.mem_append.mp h with h | h
    · simpa using renderNatDigits_all_digit l '{' h
    · rcases List.mem_cons.mp h with h | h
      · exact absurd h (by decide)
      · simpa using renderNatDigits_all_digit c '{' h

theorem findallGrouped_simple_nil (l c : Nat) :
    findallGrouped (simpleLocStr l c) = [] := by
  apply findallGroupedGo_of_none
  intro suf hsuf
  apply tryGroupedAt_none_of_no_lbrace
  intro hmem
  exact no_lbrace_simpleLocStr l c (hsuf.subset hmem)

theorem findallSimple_grouped_nil (l c0 : Nat) (cols : List Nat) :
    findallSimple (groupedLocStr l (c0 :: cols)) = [] := by
  apply findallSimpleGo_of_none
  intro suf hsuf
  rw [show groupedLocStr l (c0 :: cols) = ':' :: (renderNatDigits l ++
    ':' :: '{' :: (intercalateComma
      (renderNatDigits c0 :: List.map renderNatDigits cols) ++ ['}']))
    from rfl] at hsuf
  rcases List.suffix_cons_iff.mp hsuf with rfl | hsuf
  · exact trySimpleAt_grouped_head l _
  · refine trySimpleAt_through_digits _ _ (renderNatDigits_all_digit l)
      ?_ suf hsuf
    intro s2 hs2
    rcases List.suffix_cons_iff.mp hs2 with rfl | hs2
    · exact trySimpleAt_colon_nondigit _ (by decide)
    · refine trySimpleAt_none_no_colon ?_ s2 hs2
      intro ch hch
      rcases List.mem_cons.mp hch with rfl | hch
      · decide
      · rcases List.mem_append.mp hch with hch | hch
        · exact isDigitOrComma_ne_colon (grouped_body_chars c0 cols ch hch)
        · rcases List.mem_singleton.mp hch with rfl
          decide

theorem parse_simpleLocStr (l c : Nat) :
    parse_chisel_locations (simpleLocStr l c) = [(l, c)] := by
  unfold parse_chisel_locations
  rw [findallSimple_single (by simp [simpleLocStr]) (trySimpleAt_simple l c),
    findallGrouped_simple_nil l c]
  rfl

theorem parse_groupedLocStr (l c0 : Nat) (cols : List Nat) :
    parse_chisel_locations (groupedLocStr l (c0 :: cols)) =
      (c0 :: cols).map (fun x => (l, x)) := by
  unfold parse_chisel_locations
  rw [findallSimple_grouped_nil l c0 cols,
    findallGrouped_single (by simp [groupedLocStr])
      (tryGroupedAt_grouped l c0 cols)]
  simp

theorem addToLineGroup_same (l : Nat) (acc : List Nat) (c : Nat) :
    addToLineGroup [(l, acc)] l c = [(l, acc ++ [c])] := by
  simp [addToLineGroup]

theorem groupByLine_aux (l : Nat) :
    ∀ (cols acc : List Nat),
      (cols.map (fun c => (l, c))).foldl
        (fun a lc => addToLineGroup a lc.1 lc.2) [(l, acc)] =
      [(l, acc ++ cols)] := by
  intro cols
  induction cols with
  | nil => intro acc; simp
  | cons c cs ih =>
    intro acc
    simp only [List.map_cons, List.foldl_cons]
    rw [addToLineGroup_same, ih (acc ++ [c])]
    simp

theorem groupByLine_same_line (l : Nat) (c0 : Nat) (cols : List Nat) :
    groupByLine ((c0 :: cols).map (fun c => (l, c))) = [(l, c0 :: cols)] := by
  unfold groupByLine
  simp only [List.map_cons, List.foldl_cons]
  rw [show addToLineGroup [] l c0 = [(l, [c0])] from rfl,
    groupByLine_aux l cols [c0]]
  rfl

theorem pySorted_sorted_id :
    ∀ (cols : List Nat), List.Chain' (· ≤ ·) cols → pySorted cols = cols := by
  intro cols
  induction cols with
  | nil => intro _; rfl
  | cons x xs ih =>
    intro h
    show insertSorted x (pySorted xs) = x :: xs
    rw [ih h.tail]
    cases xs with
    | nil => rfl
    | cons y ys =>
      have hxy : x ≤ y := (List.chain'_cons.mp h).1
      simp [insertSorted, hxy]

theorem renderLocs_single (l c : Nat) :
    renderLocs [(l, c)] = simpleLocStr l c := rfl

theorem renderLocs_grouped (l c0 : Nat) (cols : List Nat)
    (h2 : 2 ≤ (c0 :: cols).length)
    (hs : List.Chain' (· ≤ ·) (c0 :: cols)) :
    renderLocs ((c0 :: cols).map (fun x => (l, x))) =
      groupedLocStr l (c0 :: cols) := by
  unfold renderLocs
  rw [if_pos (by simpa using h2), groupByLine_same_line l c0 cols]
  show renderPart (l, c0 :: cols) = _
  unfold renderPart
  rw [if_pos (by simpa using h2), pySorted_sorted_id _ hs]
  simp [groupedLocStr]

/-- C7 counterexample: in the comma-separated repeated simple form the
negative lookahead of the simple-form regex only backtracks the final
digit instead of rejecting the match, so the occurrence `:46:20` of
`":46:20, :47:8"` is parsed as the pair `(46, 2)` — a column digit is
lost, the parsed set is not the annotated set, and re-rendering the
parsed pairs cannot reproduce the original string's pairs. -/
theorem parse_chisel_locations_cex :
    parse_chisel_locations ":46:20, :47:8".toList = [(46, 2), (47, 8)] ∧
    (46, 20) ∉ parse_chisel_locations ":46:20, :47:8".toList := by
  decide

/-- C7 (amended): a simple `:line:col` occurrence whose column is not
immediately followed by `,` or `{` or `}` parses to its `(line, col)`
pair (a trailing `,`/`}` costs the column its final digit, or the whole
occurrence when the column has one digit); every column of a grouped
`:line:{c1,...,ck}` occurrence is preserved as a distinct pair; and
parsing followed by per-line re-rendering reproduces the location string
— hence its (line, column) set — for a standalone simple occurrence and
for a standalone grouped occurrence with at least two ascending
columns. -/
theorem parse_render_round_trip (l c : Nat) (cols : List Nat)
    (h2 : 2 ≤ cols.length) (hs : List.Chain' (· ≤ ·) cols) :
    parse_chisel_locations (simpleLocStr l c) = [(l, c)] ∧
    renderLocs (parse_chisel_locations (simpleLocStr l c)) =
      simpleLocStr l c ∧
    parse_chisel_locations (groupedLocStr l cols) =
      cols.map (fun x => (l, x)) ∧
    renderLocs (parse_chisel_locations (groupedLocStr l cols)) =
      groupedLocStr l cols := by
  obtain ⟨c0, cols', rfl⟩ : ∃ c0 cols', cols = c0 :: cols' := by
    cases cols with
    | nil => simp at h2
    | cons c0 cols' => exact ⟨c0, cols', rfl⟩
  have hp := parse_simpleLocStr l c
  have hg := parse_groupedLocStr l c0 cols'
  refine ⟨hp, ?_, hg, ?_⟩
  · rw [hp]
    exact renderLocs_single l c
  · rw [hg]
    exact renderLocs_grouped l c0 cols' h2 hs

/-- Witness for the amended C7 at the concrete annotation strings
`":46:20"` and `":46:{20,31}"`. -/
theorem parse_render_round_trip_witness :
    2 ≤ ([20, 31] : List Nat).length ∧
    List.Chain' (· ≤ ·) ([20, 31] : List Nat) ∧
    (parse_chisel_locations (simpleLocStr 46 20) = [(46, 20)] ∧
     renderLocs (parse_chisel_locations (simpleLocStr 46 20)) =
       simpleLocStr 46 20 ∧
     parse_chisel_locations (groupedLocStr 46 [20, 31]) =
       [20, 31].map (fun x => (46, x)) ∧
     renderLocs (parse_chisel_locations (groupedLocStr 46 [20, 31])) =
       groupedLocStr 46 [20, 31]) :=
  ⟨by decide, by simp,
   parse_render_round_trip 46 20 [20, 31] (by decide) (by simp)⟩
